import Mathlib

/-!
Verification development for the `ideas_topics` repository.

The repository's core (the spec's "Hierarchy Builder") lives in
`src/data_similarity.py` (class `Embedder`), with the text codec in
`src/utils.py`, the capped data fetch in `src/chroma_client.py`, and the
structure cache in `src/pages/writer.py`.

Modelling conventions used throughout this file:
* Python strings are Lean `String`s; where character-level scanning matters
  (`str.replace`, `str.title`) we work on `List Char`, which matches Python's
  code-point semantics for the ASCII data involved.
* Python floats are modelled as exact rationals (`ℚ`).  The floating-point
  literal `1e-8` from the source is modelled as the exact rational `1/10^8`.
* External library functions that are not part of this repository are
  parameters of the embedding: scikit-learn's `AgglomerativeClustering`
  becomes an abstract `ClusterFn` receiving exactly the arguments the source
  passes (`n_clusters`, `metric`, `linkage`, the vectors), KeyBERT's
  `extract_keywords` becomes an abstract `ExtractFn` that can also fail
  (`Except`), `numpy.linalg.norm` becomes an abstract `NormFn`, and
  `json.load` becomes an abstract parse function.  Every theorem below holds
  for every instantiation of these parameters (or states the library contract
  it needs as an explicit hypothesis).
* `np.unique` returns the sorted list of distinct labels: modelled by an
  insertion sort followed by `dedup`.
* `np.argpartition(d, k)[:k]` selects `k` indices whose values are the `k`
  smallest entries of `d`; only the *mean* of the selected values is ever
  used, and that mean equals the mean of the first `k` entries of the sorted
  list, which is how we model the selection.
-/

/-! ## Text codec (`src/utils.py`) -/

/-- Python `str.replace(pat, rep)`: scan left to right, replacing
non-overlapping occurrences.  Structural fuel recursion (`fuel = s.length`
suffices because every step consumes at least one character; the source never
calls this with an empty pattern, and the `pat = []` guard keeps the
definition total). -/
def leadsWith : List Char → List Char → Bool
  | [], _ => true
  | _ :: _, [] => false
  | p :: ps, c :: cs => p == c && leadsWith ps cs

def replaceAllAux (pat rep : List Char) : Nat → List Char → List Char
  | 0, s => s
  | _ + 1, [] => []
  | fuel + 1, c :: rest =>
    if pat ≠ [] ∧ leadsWith pat (c :: rest) then
      rep ++ replaceAllAux pat rep fuel ((c :: rest).drop pat.length)
    else
      c :: replaceAllAux pat rep fuel rest

def replaceAll (s pat rep : List Char) : List Char :=
  replaceAllAux pat rep s.length s

/-- `src/utils.py` line 15: `f"{name}. {name}: {description}"`. -/
def format_text (name description : String) : String :=
  name ++ ". " ++ name ++ ": " ++ description

/-- `src/utils.py` line 31: `description.replace(f"{name}. {name}:", "")`. -/
def unformat_text (name description : String) : String :=
  String.mk (replaceAll description.toList (name ++ ". " ++ name ++ ":").toList [])

/-! ## Data model for the hierarchy builder (`src/data_similarity.py`) -/

/-- A document embedding vector (a Python list of floats). -/
abbrev Emb := List ℚ

/-- Abstract interface of scikit-learn's `AgglomerativeClustering(...).fit_predict`:
receives exactly the arguments built at `src/data_similarity.py` lines 197-204
(`n_clusters`, `metric`, `linkage`) plus the sample vectors, and returns one
label per sample (that contract is stated as a hypothesis where needed). -/
abbrev ClusterFn := Nat → String → String → List Emb → List Nat

/-- Abstract interface of KeyBERT's `extract_keywords` (an external model):
given the combined text it either raises (`Except.error`) or returns a list of
`(keyword, score)` pairs.  The fixed keyword-extraction options passed by the
source (`keyphrase_ngram_range=(1,2)`, `stop_words='english'`, `use_mmr=True`,
`diversity=0.7`, `top_n=2`) are constants absorbed into the function. -/
abbrev ExtractFn := String → Except String (List (String × ℚ))

/-- Abstract interface of `numpy.linalg.norm` on one vector. -/
abbrev NormFn := List ℚ → ℚ

/-- A node of the generated table-of-contents tree.  The source builds plain
dicts; the structural keys (`title`, `text`, `type`, `id`, `level`,
`children`) become constructor fields (`type` is the constructor itself),
while the dynamically added numeric keys (`originality_score` in the source)
are kept as an association list `attrs` so that statements about *which* key
a value is stored under remain expressible. -/
inductive TocNode where
  | leaf (title text id : String) (attrs : List (String × ℚ))
  | heading (title : String) (level : Nat) (children : List TocNode) (attrs : List (String × ℚ))

/-- Python dict assignment `d[key] = v`: overwrite if present, else append. -/
def dictSet (attrs : List (String × ℚ)) (key : String) (v : ℚ) : List (String × ℚ) :=
  if attrs.any (fun p => p.1 == key) then
    attrs.map (fun p => if p.1 == key then (key, v) else p)
  else attrs ++ [(key, v)]

/-- Python `d.get(key)` (no default): `none` when the key is absent. -/
def dictGet (attrs : List (String × ℚ)) (key : String) : Option ℚ :=
  (attrs.find? (fun p => p.1 == key)).map (fun p => p.2)

/-- Sorted list of distinct values: `np.unique` (ascending, duplicates removed). -/
def insertLe (x : Nat) : List Nat → List Nat
  | [] => [x]
  | y :: ys => if x ≤ y then x :: y :: ys else y :: insertLe x ys

def sortNat : List Nat → List Nat
  | [] => []
  | x :: xs => insertLe x (sortNat xs)

def uniqueSorted (l : List Nat) : List Nat := (sortNat l).dedup

/-- Ascending insertion sort on rationals (used to model the `k` smallest
entries selected by `np.argpartition(d, k)[:k]`; only the mean of the selected
values is used by the source, and the multiset of the `k` smallest values is
exactly the first `k` entries of the sorted list). -/
def insertLeQ (x : ℚ) : List ℚ → List ℚ
  | [] => [x]
  | y :: ys => if x ≤ y then x :: y :: ys else y :: insertLeQ x ys

def sortQ : List ℚ → List ℚ
  | [] => []
  | x :: xs => insertLeQ x (sortQ xs)

/-! ## Originality scorer (`_calculate_originality_scores`, lines 291-351) -/

/-- The float literal `1e-8` from the source, as an exact rational. -/
def epsQ : ℚ := 1 / 100000000

/-- `max(0.0, min(1.0, q))` (lines 344 and 442). -/
def clamp01 (q : ℚ) : ℚ := max 0 (min 1 q)

/-- `np.dot` on two vectors. -/
def dotQ (x y : List ℚ) : ℚ := (List.zipWith (fun a b => a * b) x y).sum

/-- `np.mean` of a list (the source only takes means of non-empty lists). -/
def listMean (l : List ℚ) : ℚ := l.sum / (l.length : ℚ)

/-- One iteration of the inner loop at lines 315-327: the cosine distance of
`X[i]` and `X[j]`, falling back to the sentinel `1.0` when either vector has
zero norm ("If one vector is zero, set distance to maximum"). -/
def cosDistPair (nrm : NormFn) (x y : Emb) : ℚ :=
  if 0 < nrm x ∧ 0 < nrm y then 1 - dotQ x y / (nrm x * nrm y) else 1

/-- The `distances` list accumulated for entry `i` (loop at lines 313-327):
cosine distances to every other entry, in index order. -/
def pairDistances (nrm : NormFn) (X : List Emb) (i : Nat) : List ℚ :=
  ((List.range X.length).filter (fun j => j != i)).map
    (fun j => cosDistPair nrm (X.getD i []) (X.getD j []))

/-- Selection of the `k` nearest distances and their mean (lines 329-339):
`argpartition` when `k > 0` and `len(distances) > k`, otherwise the plain
prefix `distances[:k]` (or all of them when `k = 0`). -/
def kSelectMean (k : Nat) (ds : List ℚ) : ℚ :=
  if 0 < k ∧ k < ds.length then listMean ((sortQ ds).take k)
  else if 0 < k then listMean (ds.take k)
  else listMean ds

/-- The `scores` list of `_calculate_originality_scores` for `n_entries ≥ 2`
(lines 305-347): note `n_entries = len(embeddings)` and
`k = min(5, n_entries - 1)` per the source. -/
def calcScores (nrm : NormFn) (embs : List Emb) : List ℚ :=
  (List.range embs.length).map (fun i =>
    let distances := pairDistances nrm embs i
    if 0 < distances.length then
      clamp01 (1 - kSelectMean (min 5 (embs.length - 1)) distances / (1 + epsQ))
    else 1)

/-- `entry["originality_score"] = q`. -/
def setScore (nd : TocNode) (q : ℚ) : TocNode :=
  match nd with
  | .leaf t x i attrs => .leaf t x i (dictSet attrs "originality_score" q)
  | .heading t l cs attrs => .heading t l cs (dictSet attrs "originality_score" q)

/-- `_calculate_originality_scores` (lines 291-351), functionally: the source
mutates `entries` in place; here the updated list is returned.  The
out-of-range default in `getD` corresponds to the `IndexError` Python would
raise if `entries` were longer than `embeddings`; all call sites pass
parallel lists. -/
def calculate_originality_scores (nrm : NormFn) (embs : List Emb) (entries : List TocNode) : List TocNode :=
  if entries.length ≤ 1 then entries.map (fun e => setScore e 1)
  else (entries.enum).map (fun p => setScore p.2 ((calcScores nrm embs).getD p.1 1))

/-! ## Title synthesizer (`generate_synthetic_title`, lines 239-289) -/

/-- Python `str.title()` for the ASCII data at hand: the first letter of every
run of alphabetic characters is uppercased, the rest lowercased. -/
def pyTitleAux : Bool → List Char → List Char
  | _, [] => []
  | prevAlpha, c :: cs =>
    if c.isAlpha then (if prevAlpha then c.toLower else c.toUpper) :: pyTitleAux true cs
    else c :: pyTitleAux false cs

def pyTitle (s : String) : String := String.mk (pyTitleAux false s.toList)

/-- `re.sub(r'[^\w\s]', '', doc.lower())` (line 263): lowercase, then drop
every character that is neither a word character (alphanumeric or `_`) nor
whitespace. -/
def cleanDoc (s : String) : String :=
  String.mk (s.toLower.toList.filter (fun c => c.isAlphanum || c == '_' || c.isWhitespace))

/-- `full_text = " ".join([re.sub(...) for doc in cluster_docs])` (line 263). -/
def fullTextOf (cluster_docs : List String) : String :=
  String.intercalate " " (cluster_docs.map cleanDoc)

/-- `generate_synthetic_title` (lines 239-289).  The `try` block only contains
the `extract_keywords` call and pure list/string operations that cannot raise,
so the abstract extractor is the only failure source; an `Except.error` result
models the `except Exception` path. -/
def generate_synthetic_title (ex : ExtractFn) (cluster_docs : List String) : String :=
  if cluster_docs.isEmpty then "Untitled Section"
  else
    match ex (fullTextOf cluster_docs) with
    | .error _ => "Section: " ++ pyTitle ((cluster_docs.headD "").take 20)
    | .ok keywords =>
      if keywords.isEmpty then "General Topic"
      else pyTitle (String.intercalate " & " (keywords.map (fun k => k.1)))

/-! ## Heading originality (`_calculate_heading_originality_score`, lines 353-449) -/

/-- `np.where(norm == 0, 1e-8, norm)` applied entrywise (line 413). -/
def substZero (q : ℚ) : ℚ := if q = 0 then epsQ else q

/-- Elementwise vector sum (`np.mean(..., axis=0)` numerator). -/
def vecAdd (x y : List ℚ) : List ℚ := List.zipWith (fun a b => a + b) x y

/-- `np.mean(vs, axis=0)`: elementwise mean of a list of equal-length vectors. -/
def meanVec (vs : List Emb) : Emb :=
  match vs with
  | [] => []
  | v :: rest => (rest.foldl vecAdd v).map (fun q => q / ((vs.length : ℚ)))

mutual
/-- `collect_child_embeddings` (lines 364-379): recursively gather
`(embedding, doc, id)` for every leaf below a node, skipping leaves whose id
is not in `all_ids` (the `except ValueError` path of `list.index`).  A heading
with an empty `children` list contributes nothing (`entry.get("children")` is
falsy), which coincides with flattening an empty list. -/
def collectChild (allEmbs : List Emb) (allDocs allIds : List String) : TocNode → List (Emb × String × String)
  | .leaf _ _ idv _ =>
    match allIds.findIdx? (fun s => s == idv) with
    | some idx => [(allEmbs.getD idx [], allDocs.getD idx "", idv)]
    | none => []
  | .heading _ _ cs _ => collectChildren allEmbs allDocs allIds cs

def collectChildren (allEmbs : List Emb) (allDocs allIds : List String) : List TocNode → List (Emb × String × String)
  | [] => []
  | c :: rest => collectChild allEmbs allDocs allIds c ++ collectChildren allEmbs allDocs allIds rest
end

/-- `_calculate_heading_originality_score` (lines 353-449), returning the
score the source stores into `heading_entry["originality_score"]`. -/
def headingScore (nrm : NormFn) (children : List TocNode) (allEmbs : List Emb) (allDocs allIds : List String) : ℚ :=
  let cdata := collectChildren allEmbs allDocs allIds children
  let childEmbs := cdata.map (fun t => t.1)
  let childIds := cdata.map (fun t => t.2.2)
  if 0 < childEmbs.length ∧ 0 < allEmbs.length then
    let avg := meanVec childEmbs
    let mask := (List.range allIds.length).filter (fun i => !(childIds.contains (allIds.getD i "")))
    if 0 < mask.length then
      let normChild := if 0 < nrm avg then nrm avg else epsQ
      let dists := mask.map (fun i =>
        let e := allEmbs.getD i []
        1 - dotQ e avg / (substZero (nrm e) * normChild))
      let len := dists.length
      let k := min 5 len
      let avgD :=
        if 0 < k ∧ 0 < len then
          if 1 < len then listMean ((sortQ dists).take (min k (len - 1)))
          else if 0 < len then dists.getD 0 0 else 0
        else 0
      clamp01 (1 - avgD / (1 + epsQ))
    else 1
  else 1

/-! ## Hierarchy builder (`_generate_toc_structure`, lines 171-237) -/

/-- The leaf entries built at line 192:
`[{"title": id, "text": doc, "type": "idea", "id": id} for doc, id in zip(docs, ids)]`. -/
def leafEntries (docs ids : List String) : List TocNode :=
  (docs.zip ids).map (fun p => .leaf p.2 p.1 p.2 [])

/-- `np.where(labels == label)[0]`: ascending positions of `label` in `labels`. -/
def idxsOf (labels : List Nat) (v : Nat) : List Nat :=
  (List.range labels.length).filter (fun i => labels.getD i 0 == v)

/-- `[xs[i] for i in idxs]`. -/
def clusterOf (dflt : α) (xs : List α) (idxs : List Nat) : List α :=
  idxs.map (fun i => xs.getD i dflt)

/-- `_generate_toc_structure` (lines 171-237).  `level` and `max_depth`
default to 1 and 3 at the top call (`generate_toc_structure`).  The guard
`len(X) <= 2 or level > max_depth` bounds the recursion depth, which is what
the termination measure uses; clustering behaviour is the abstract `cf`. -/
def genTocStructure (cf : ClusterFn) (ex : ExtractFn) (nrm : NormFn)
    (docs ids : List String) (embs : List Emb) (level maxd : Nat) : List TocNode :=
  if h : embs.length ≤ 2 ∨ maxd < level then
    calculate_originality_scores nrm embs (leafEntries docs ids)
  else
    (uniqueSorted (cf (max 2 (Nat.sqrt embs.length)) "cosine" "average" embs)).map (fun v =>
      let idxs := idxsOf (cf (max 2 (Nat.sqrt embs.length)) "cosine" "average" embs) v
      let cDocs := clusterOf "" docs idxs
      let cIds := clusterOf "" ids idxs
      let cEmbs := clusterOf [] embs idxs
      let children := genTocStructure cf ex nrm cDocs cIds cEmbs (level + 1) maxd
      TocNode.heading (generate_synthetic_title ex cDocs) level children
        (dictSet [] "originality_score" (headingScore nrm children embs docs ids)))
termination_by maxd + 1 - level
decreasing_by simp at h; omega

/-- One clustering request: the constructor arguments of
`AgglomerativeClustering` at lines 199-203 plus the number of items and the
recursion level at which the request is made. -/
structure ClusterCall where
  nItems : Nat
  nClusters : Nat
  metric : String
  linkage : String
  level : Nat
deriving DecidableEq

/-- The list of clustering requests issued by a run of
`_generate_toc_structure`, in call order: a twin of `genTocStructure` whose
recursion mirrors lines 188-237 exactly (titles and originality scores do not
influence which clustering calls happen). -/
def tocClusterCalls (cf : ClusterFn) (docs ids : List String) (embs : List Emb)
    (level maxd : Nat) : List ClusterCall :=
  if h : embs.length ≤ 2 ∨ maxd < level then []
  else
    let labels := cf (max 2 (Nat.sqrt embs.length)) "cosine" "average" embs
    ⟨embs.length, max 2 (Nat.sqrt embs.length), "cosine", "average", level⟩ ::
      (uniqueSorted labels).flatMap (fun v =>
        let idxs := idxsOf labels v
        tocClusterCalls cf (clusterOf "" docs idxs) (clusterOf "" ids idxs)
          (clusterOf [] embs idxs) (level + 1) maxd)
termination_by maxd + 1 - level
decreasing_by simp at h; omega

/-! ## Corpus fetch and top-level build -/

/-- A stored collection row: `(id, document, embedding)`. -/
abbrev CollectionRow := String × String × Emb

/-- `src/chroma_client.py` lines 105-114 (`ChromaClient.get_all_data`):
`collection.get(include=[...], limit=max_items)` returns at most the first
`max_items` rows; the default ceiling is 500. -/
def get_all_data (max_items : Nat) (collection : List CollectionRow) : List CollectionRow :=
  collection.take max_items

/-- The default `max_items` of `ChromaClient.get_all_data`. -/
def defaultMaxItems : Nat := 500

/-- `src/data_similarity.py` lines 154-169 (`Embedder.generate_toc_structure`):
the corpus handed to the recursive build is fetched with
`self.collection.get(include=['embeddings', 'documents'])` — no `limit`
argument, so the whole collection is used. -/
def tocBuildCorpus (collection : List CollectionRow) : List CollectionRow :=
  collection

/-- `Embedder.generate_toc_structure` (lines 154-169): fetch the corpus and
run `_generate_toc_structure` with the default `level = 1`, `max_depth = 3`. -/
def generate_toc_structure (cf : ClusterFn) (ex : ExtractFn) (nrm : NormFn)
    (collection : List CollectionRow) : List TocNode :=
  let data := tocBuildCorpus collection
  genTocStructure cf ex nrm (data.map (fun r => r.2.1)) (data.map (fun r => r.1))
    (data.map (fun r => r.2.2)) 1 3

/-! ## Structure cache (`src/pages/writer.py`, lines 11-50) -/

/-- `save_toc_structure` (lines 11-31), success path: the cache file now holds
the serialized structure.  (`json.dump` is external; the serializer is a
parameter.) -/
def save_toc_structure (serialize : α → String) (structure_ : α) : Option String :=
  some (serialize structure_)

/-- `load_toc_structure` (lines 33-50): the cache-file state is `none` when
`os.path.exists` is false, otherwise `some contents`; `json.load` is the
abstract `parse`, whose `Except.error` result models both unreadable files and
parse failures, all swallowed by the `except` clause.  The function is total:
every cache-file state yields `some tree` or `none`, never an exception. -/
def load_toc_structure (parse : String → Except String α) (file : Option String) : Option α :=
  match file with
  | none => none
  | some contents =>
    match parse contents with
    | .ok t => some t
    | .error _ => none

/-! ## Tree observations used by the testable properties -/

/-- Whether a node is a leaf (`"type": "idea"`). -/
def isLeafB : TocNode → Bool
  | .leaf .. => true
  | .heading .. => false

mutual
/-- Leaf ids of a single node, in tree order. -/
def leafIdsN : TocNode → List String
  | .leaf _ _ idv _ => [idv]
  | .heading _ _ cs _ => leafIdsF cs

/-- Leaf ids of a forest, in tree order. -/
def leafIdsF : List TocNode → List String
  | [] => []
  | nd :: rest => leafIdsN nd ++ leafIdsF rest
end

/-- Whether a node, if it is a heading, carries exactly the given level
(leaves are unconstrained). -/
def topLevelIs (lv : Nat) : TocNode → Bool
  | .leaf .. => true
  | .heading _ l _ _ => l == lv

/-- Checker for the depth-bound and level-increment invariants: every heading
in the forest has `level ≤ maxd`, and every heading child of a heading has a
`level` exactly one greater than its parent's. -/
def nodeLevelsOK (maxd : Nat) : List TocNode → Bool
  | [] => true
  | .leaf .. :: rest => nodeLevelsOK maxd rest
  | .heading _ lv cs _ :: rest =>
    decide (lv ≤ maxd) && cs.all (topLevelIs (lv + 1))
      && nodeLevelsOK maxd cs && nodeLevelsOK maxd rest

/-- Height of a forest: a leaf sits at height 1, a heading one above its
children; a leaf below `j` nested headings was emitted by the recursive call
at `level = j + 1`, so `forestHeight (build at level 1) ≤ maxd + 1` states
"leaves appear only at recursion level ≤ max_depth + 1". -/
def forestHeight : List TocNode → Nat
  | [] => 0
  | .leaf .. :: rest => max 1 (forestHeight rest)
  | .heading _ _ cs _ :: rest => max (forestHeight cs + 1) (forestHeight rest)

/-- The value rendered by `render_body` (`src/pages/writer.py` lines 95 and
120): `node.get('originality', 'N/A')` produces either the stored number or
the string `'N/A'`. -/
inductive StrOrNum where
  | str (s : String)
  | num (q : ℚ)
deriving DecidableEq

/-- `node.get('originality', 'N/A')` on a node's dynamic keys. -/
def rendererOriginality (attrs : List (String × ℚ)) : StrOrNum :=
  match dictGet attrs "originality" with
  | some q => .num q
  | none => .str "N/A"

/-- Per-node key check: a value is stored under `"originality_score"`, no
`"originality"` key exists, and `node.get('originality', 'N/A')` therefore
renders as `'N/A'`. -/
def attrsCheckB (attrs : List (String × ℚ)) : Bool :=
  (dictGet attrs "originality_score").isSome
    && (dictGet attrs "originality").isNone
    && decide (rendererOriginality attrs = .str "N/A")

/-- Checker for the key-naming invariant over the whole forest. -/
def nodeAttrsOK : List TocNode → Bool
  | [] => true
  | .leaf _ _ _ attrs :: rest => attrsCheckB attrs && nodeAttrsOK rest
  | .heading _ _ cs attrs :: rest => attrsCheckB attrs && nodeAttrsOK cs && nodeAttrsOK rest

/-! ## Claim C1: text codec round trip -/

/-- C1: the claimed round-trip law `unformat_text name (format_text name d) = d`
fails on the code: `format_text` inserts the separator `": "` (colon and
space) but `unformat_text` removes only `"{name}. {name}:"` without the
trailing space, so decoding returns `" " ++ d`.  At the failing input
`name = "A"`, `description = "x"` the code yields `" x"`, not `"x"`,
contradicting the code's own documentation ("Returns: str: Extracted original
description"). -/
theorem unformat_format_leaves_leading_space :
    unformat_text "A" (format_text "A" "x") = " x" ∧ (" x" : String) ≠ "x" := by
  exact ⟨rfl, by decide⟩

/-! ## Claim C7: corpus cap -/

/-- C7 counterexample: the corpus handed to the recursive TOC build
(`Embedder.generate_toc_structure`, which fetches with `collection.get` and
no `limit`) is the whole collection; with 501 stored rows the build processes
501 documents, exceeding the `max_items = 500` ceiling that only
`ChromaClient.get_all_data` applies. -/
theorem toc_build_corpus_uncapped_cex :
    (tocBuildCorpus (List.replicate 501 ("", "", ([] : Emb)))).length = 501 ∧
      ¬ (tocBuildCorpus (List.replicate 501 ("", "", ([] : Emb)))).length ≤ defaultMaxItems := by
  have h : (tocBuildCorpus (List.replicate 501 ("", "", ([] : Emb)))).length = 501 :=
    List.length_replicate 501 _
  exact ⟨h, by rw [h]; decide⟩

/-- C7 (amended): `ChromaClient.get_all_data` caps its result at `max_items`
(default 500), but the corpus the hierarchy build passes into the recursive
TOC construction is the full, uncapped collection. -/
theorem get_all_data_capped_build_uncapped (max_items : Nat) (collection : List CollectionRow) :
    (get_all_data max_items collection).length ≤ max_items ∧
      tocBuildCorpus collection = collection :=
  ⟨List.length_take_le .., rfl⟩

/-! ## Claim C9: structure-cache load -/

/-- C9: `load_toc_structure` returns the saved tree when the cache file exists
and parses (`json.load` succeeds on the saved contents), and returns `none`
both when the file is missing and when its contents fail to parse; the
function is total, so no exception escapes `load` for any cache-file state. -/
theorem load_toc_structure_cases {α : Type} (parse : String → Except String α)
    (serialize : α → String) (t : α) (c : String) :
    (parse (serialize t) = .ok t →
      load_toc_structure parse (save_toc_structure serialize t) = some t) ∧
    load_toc_structure parse none = none ∧
    (∀ e, parse c = .error e → load_toc_structure parse (some c) = none) := by
  refine ⟨fun h => ?_, rfl, fun e h => ?_⟩
  · simp [load_toc_structure, save_toc_structure, h]
  · simp [load_toc_structure, h]

/-- A concrete `json.load` stand-in for the cache witness. -/
def parseW : String → Except String Nat :=
  fun s => if s = "7" then .ok 7 else .error "corrupt"

/-- Witness for C9 at a concrete serializer/parser pair. -/
theorem load_toc_structure_cases_witness :
    load_toc_structure parseW (save_toc_structure toString 7) = some 7 ∧
    load_toc_structure parseW none = none ∧
    load_toc_structure parseW (some "oops") = none :=
  ⟨(load_toc_structure_cases parseW toString 7 "oops").1 rfl,
   (load_toc_structure_cases parseW toString 7 "oops").2.1,
   (load_toc_structure_cases parseW toString 7 "oops").2.2 "corrupt" rfl⟩

/-! ## Claim C8: title synthesizer failure policy -/

/-- C8: `generate_synthetic_title` is a total function of its inputs (the
`except Exception` handler absorbs extraction failures, so nothing propagates
to the caller); an empty cluster yields the fixed placeholder
`"Untitled Section"`, and a throwing extraction yields the fallback title
built from the title-cased 20-character prefix of the first document. -/
theorem generate_synthetic_title_fallbacks (ex : ExtractFn) (cluster_docs : List String) :
    (cluster_docs = [] → generate_synthetic_title ex cluster_docs = "Untitled Section") ∧
    (∀ e, cluster_docs ≠ [] → ex (fullTextOf cluster_docs) = .error e →
      generate_synthetic_title ex cluster_docs =
        "Section: " ++ pyTitle ((cluster_docs.headD "").take 20)) := by
  constructor
  · intro h; subst h; rfl
  · intro e hne hex
    simp [generate_synthetic_title, List.isEmpty_iff, hne, hex]

/-- A KeyBERT stand-in that always raises. -/
def extractErrW : ExtractFn := fun _ => .error "boom"

/-- Witness for C8: a throwing extractor on a concrete one-document cluster
takes the truncated-prefix fallback, and the empty cluster takes the
placeholder. -/
theorem generate_synthetic_title_fallbacks_witness :
    generate_synthetic_title extractErrW [] = "Untitled Section" ∧
    generate_synthetic_title extractErrW ["hello world this is a long idea"] =
      "Section: " ++ pyTitle ((["hello world this is a long idea"].headD "").take 20) :=
  ⟨(generate_synthetic_title_fallbacks extractErrW []).1 rfl,
   (generate_synthetic_title_fallbacks extractErrW ["hello world this is a long idea"]).2
     "boom" (by simp) rfl⟩

/-! ## Sorting lemmas -/

theorem insertLeQ_perm (x : ℚ) (l : List ℚ) : (insertLeQ x l).Perm (x :: l) := by
  induction l with
  | nil => simp [insertLeQ]
  | cons y ys ih =>
    simp only [insertLeQ]
    split
    · exact List.Perm.refl _
    · exact (List.Perm.cons y ih).trans (List.Perm.swap x y ys)

theorem sortQ_perm (l : List ℚ) : (sortQ l).Perm l := by
  induction l with
  | nil => simp [sortQ]
  | cons x xs ih => exact (insertLeQ_perm x (sortQ xs)).trans (List.Perm.cons x ih)

theorem sortQ_length (l : List ℚ) : (sortQ l).length = l.length :=
  (sortQ_perm l).length_eq

theorem listMean_perm {l l2 : List ℚ} (h : l.Perm l2) : listMean l = listMean l2 := by
  unfold listMean
  rw [h.sum_eq, h.length_eq]

theorem insertLe_perm (x : Nat) (l : List Nat) : (insertLe x l).Perm (x :: l) := by
  induction l with
  | nil => simp [insertLe]
  | cons y ys ih =>
    simp only [insertLe]
    split
    · exact List.Perm.refl _
    · exact (List.Perm.cons y ih).trans (List.Perm.swap x y ys)

theorem sortNat_perm (l : List Nat) : (sortNat l).Perm l := by
  induction l with
  | nil => simp [sortNat]
  | cons x xs ih => exact (insertLe_perm x (sortNat xs)).trans (List.Perm.cons x ih)

theorem mem_uniqueSorted {v : Nat} {l : List Nat} : v ∈ uniqueSorted l ↔ v ∈ l := by
  unfold uniqueSorted
  rw [List.mem_dedup]
  exact (sortNat_perm l).mem_iff

theorem nodup_uniqueSorted (l : List Nat) : (uniqueSorted l).Nodup :=
  List.nodup_dedup _

/-! ## Originality-scorer lemmas -/

theorem kSelectMean_eq_sorted_take {k : Nat} (hk : 0 < k) (ds : List ℚ) :
    kSelectMean k ds = listMean ((sortQ ds).take k) := by
  unfold kSelectMean
  by_cases hlen : k < ds.length
  · simp [hk, hlen]
  · have hds : ds.take k = ds := List.take_of_length_le (by omega)
    have hsq : (sortQ ds).take k = sortQ ds :=
      List.take_of_length_le (by rw [sortQ_length]; omega)
    simp only [hk, hlen, and_false, if_false, if_pos hk, hds, hsq]
    exact (listMean_perm (sortQ_perm ds)).symm

theorem length_filter_bne_of_nodup {l : List Nat} {a : Nat}
    (hnd : l.Nodup) (ha : a ∈ l) :
    (l.filter (fun j => j != a)).length = l.length - 1 := by
  induction l with
  | nil => cases ha
  | cons b bs ih =>
    rcases List.nodup_cons.mp hnd with ⟨hb, hbs⟩
    by_cases hab : b = a
    · subst hab
      have : bs.filter (fun j => j != b) = bs :=
        List.filter_eq_self.mpr (fun x hx => by
          simp only [bne_iff_ne, ne_eq, decide_eq_true_eq]
          exact fun hxa => hb (hxa ▸ hx))
      simp [List.filter_cons, this]
    · have ha2 : a ∈ bs := by
        rcases List.mem_cons.mp ha with h | h
        · exact absurd h.symm hab
        · exact h
      have hne : (b != a) = true := by simp [bne_iff_ne]; exact hab
      have hlen : 0 < bs.length := List.length_pos_of_mem ha2
      have hstep : List.filter (fun j => j != a) (b :: bs)
          = b :: List.filter (fun j => j != a) bs := by
        simp [List.filter_cons, hab]
      rw [hstep, List.length_cons, ih hbs ha2, List.length_cons]
      omega

theorem pairDistances_length {nrm : NormFn} {X : List Emb} {i : Nat} (hi : i < X.length) :
    (pairDistances nrm X i).length = X.length - 1 := by
  unfold pairDistances
  rw [List.length_map]
  have h := length_filter_bne_of_nodup (List.nodup_range X.length) (List.mem_range.mpr hi)
  rw [List.length_range] at h
  exact h

theorem getD_map_range {α : Type} (f : Nat → α) (d : α) {i n : Nat} (h : i < n) :
    ((List.range n).map f).getD i d = f i := by
  have hlen : i < ((List.range n).map f).length := by simpa using h
  rw [List.getD_eq_getElem _ _ hlen]
  simp

theorem clamp01_bounds (q : ℚ) : 0 ≤ clamp01 q ∧ clamp01 q ≤ 1 := by
  unfold clamp01
  constructor
  · exact le_max_left 0 _
  · exact max_le (by norm_num) (min_le_left 1 q)

/-! ## Claim C6: leaf originality scorer -/

/-- The dynamic keys of a node. -/
def nodeAttrs : TocNode → List (String × ℚ)
  | .leaf _ _ _ attrs => attrs
  | .heading _ _ _ attrs => attrs

/-- The per-entry score the source computes at line 342: the claimed
`clamp(1 - mean_distance, 0, 1)` with the extra `/(1 + 1e-8)` normalisation
applied to the mean distance over the `min 5 (n-1)` nearest neighbours. -/
def specScore (nrm : NormFn) (embs : List Emb) (i : Nat) : ℚ :=
  clamp01 (1 - listMean ((sortQ (pairDistances nrm embs i)).take (min 5 (embs.length - 1)))
    / (1 + epsQ))

/-- C6 (amended): for 0 or 1 entries every entry scores exactly 1; for `n ≥ 2`
parallel entries/embeddings each entry `i` scores
`clamp(1 - mean_distance/(1 + 1e-8), 0, 1)` with `mean_distance` the mean
cosine distance to its `min 5 (n-1)` nearest neighbours (the `1 + 1e-8`
denominator is what the source divides by, which the original claim omitted);
a pair with a zero-norm vector contributes the fixed sentinel distance `1.0`;
and every computed score lies in `[0, 1]`. -/
theorem originality_scores_spec :
    (∀ (nrm : NormFn) (embs : List Emb) (entries : List TocNode),
      entries.length ≤ 1 →
      calculate_originality_scores nrm embs entries = entries.map (fun e => setScore e 1)) ∧
    (∀ (nrm : NormFn) (embs : List Emb) (entries : List TocNode),
      2 ≤ entries.length → entries.length = embs.length →
      calculate_originality_scores nrm embs entries =
        entries.enum.map (fun p => setScore p.2 (specScore nrm embs p.1))) ∧
    (∀ (nrm : NormFn) (x y : Emb), nrm x = 0 ∨ nrm y = 0 → cosDistPair nrm x y = 1) ∧
    (∀ (nrm : NormFn) (embs : List Emb) (q : ℚ), q ∈ calcScores nrm embs →
      0 ≤ q ∧ q ≤ 1) := by
  refine ⟨?_, ?_, ?_, ?_⟩
  · intro nrm embs entries h
    unfold calculate_originality_scores
    rw [if_pos h]
  · intro nrm embs entries h2 hlen
    unfold calculate_originality_scores
    rw [if_neg (by omega)]
    apply List.map_congr_left
    rintro ⟨i, e⟩ hp
    rw [List.enum_eq_zip_range] at hp
    have hi : i < entries.length := by
      have := (List.of_mem_zip hp).1
      simpa using this
    have hin : i < embs.length := by omega
    have hcs : (calcScores nrm embs).getD i 1 =
        (fun j => let distances := pairDistances nrm embs j
          if 0 < distances.length then
            clamp01 (1 - kSelectMean (min 5 (embs.length - 1)) distances / (1 + epsQ))
          else 1) i := by
      unfold calcScores
      exact getD_map_range _ _ hin
    simp only [hcs]
    have hdlen : 0 < (pairDistances nrm embs i).length := by
      rw [pairDistances_length hin]; omega
    rw [if_pos hdlen]
    have hk : 0 < min 5 (embs.length - 1) := by omega
    rw [kSelectMean_eq_sorted_take hk]
    rfl
  · intro nrm x y h
    unfold cosDistPair
    rcases h with h | h <;> rw [if_neg] <;> rw [h] <;> simp
  · intro nrm embs q hq
    unfold calcScores at hq
    rw [List.mem_map] at hq
    obtain ⟨i, _, rfl⟩ := hq
    dsimp only
    split
    · exact clamp01_bounds _
    · exact ⟨by norm_num, by norm_num⟩

/-- A `numpy.linalg.norm` stand-in that is exact on the all-zero witness
vectors used below. -/
def nrmZ : NormFn := fun _ => 0

/-- C6 counterexample: with two zero embedding vectors the sentinel pairwise
distance is `1.0`, so the claimed formula `clamp(1 - mean_distance, 0, 1)`
predicts score `0`, but the code stores
`clamp(1 - mean_distance/(1 + 1e-8), 0, 1) = 1/100000001 ≠ 0`. -/
theorem originality_score_eps_cex :
    dictGet (nodeAttrs ((calculate_originality_scores nrmZ [[0],[0]]
        [TocNode.leaf "a" "da" "a" [], TocNode.leaf "b" "db" "b" []]).headD
        (TocNode.leaf "" "" "" []))) "originality_score"
      = some (1 / 100000001) ∧
    clamp01 (1 - kSelectMean (min 5 (([[0],[0]] : List Emb).length - 1))
        (pairDistances nrmZ [[0],[0]] 0)) = 0 ∧
    (1 / 100000001 : ℚ) ≠ 0 := by
  refine ⟨?_, ?_, by norm_num⟩
  · simp [calculate_originality_scores, calcScores, pairDistances, cosDistPair,
      kSelectMean, listMean, sortQ, insertLeQ, nrmZ, clamp01, epsQ, List.range_succ,
      setScore, dictSet, dictGet, nodeAttrs, List.enum]
    norm_num
  · simp [pairDistances, cosDistPair, kSelectMean, listMean, sortQ, insertLeQ,
      nrmZ, clamp01, List.range_succ]

def lfA : TocNode := .leaf "a" "da" "a" []

def lfB : TocNode := .leaf "b" "db" "b" []

/-- Witness for C6 at concrete inputs: the degenerate single-entry case, the
two-entry formula case, the zero-norm sentinel, and the range bound. -/
theorem originality_scores_spec_witness :
    calculate_originality_scores nrmZ [] [lfA] = [setScore lfA 1] ∧
    calculate_originality_scores nrmZ [[0],[0]] [lfA, lfB] =
      [setScore lfA (specScore nrmZ [[0],[0]] 0), setScore lfB (specScore nrmZ [[0],[0]] 1)] ∧
    cosDistPair nrmZ [1] [0] = 1 ∧
    (0 ≤ (1 : ℚ) ∧ (1 : ℚ) ≤ 1) := by
  refine ⟨?_, ?_, ?_, ?_⟩
  · exact originality_scores_spec.1 nrmZ [] [lfA] (by decide)
  · exact (originality_scores_spec.2.1 nrmZ [[0],[0]] [lfA, lfB]
      (by decide) (by decide)).trans rfl
  · exact originality_scores_spec.2.2.1 nrmZ [1] [0] (Or.inl rfl)
  · refine originality_scores_spec.2.2.2 nrmZ [[0]] 1 ?_
    have h : calcScores nrmZ [[0]] = [1] := by
      simp [calcScores, pairDistances, List.range_succ]
    rw [h]
    exact List.mem_singleton.mpr rfl

/-! ## Claim C2: branching factor -/

theorem sqrtEq (k n : Nat) (h1 : k * k ≤ n) (h2 : n < (k + 1) * (k + 1)) : Nat.sqrt n = k :=
  le_antisymm (by have := Nat.sqrt_lt.mpr h2; omega) (Nat.le_sqrt.mpr h1)

/-- Modelled from the spec: `round(sqrt(item_count))` with `round` meaning
rounding to the nearest integer (for an integer `n`, `√n` is never exactly
halfway between two integers, so the tie-breaking rule never fires): the
nearest integer to `√n` is `Nat.sqrt n` when `n ≤ sqrt n * (sqrt n + 1)`
(i.e. `√n < sqrt n + 1/2`) and `Nat.sqrt n + 1` otherwise. -/
def specRoundSqrt (n : Nat) : Nat :=
  if n ≤ Nat.sqrt n * (Nat.sqrt n + 1) then Nat.sqrt n else Nat.sqrt n + 1

/-- An `AgglomerativeClustering` stand-in putting every item in cluster 0
(label lists have the contractual length). -/
def cf0 : ClusterFn := fun _ _ _ X => X.map (fun _ => 0)

/-- C2 counterexample: on a 7-item call at level 1 ≤ max_depth the code
requests `max 2 (int(sqrt 7)) = max 2 2 = 2` clusters (`int` truncates), while
the claimed `max(2, round(sqrt(7))) = max 2 3 = 3`. -/
theorem branching_factor_round_cex :
    (tocClusterCalls cf0 (List.replicate 7 "d") (List.replicate 7 "i")
        (List.replicate 7 [0]) 1 3).headD ⟨0, 0, "", "", 0⟩
      = ⟨7, 2, "cosine", "average", 1⟩ ∧
    max 2 (specRoundSqrt 7) = 3 ∧ (2 : Nat) ≠ 3 := by
  have hsq : Nat.sqrt 7 = 2 := sqrtEq 2 7 (by norm_num) (by norm_num)
  refine ⟨?_, ?_, by decide⟩
  · rw [tocClusterCalls]
    rw [dif_neg (by simp)]
    simp [hsq]
  · rw [specRoundSqrt, hsq]
    norm_num

/-- C2 (amended): every clustering request issued by `_generate_toc_structure`
(on more than 2 items with level ≤ max_depth — the only situations in which a
request happens) asks for exactly `max 2 (floor (sqrt item_count))` clusters
(the source's `int(np.sqrt(len(X)))` truncates instead of rounding to
nearest) with cosine metric and average linkage. -/
theorem branching_factor_floor_sqrt (cf : ClusterFn) (docs ids : List String)
    (embs : List Emb) (level maxd : Nat) (c : ClusterCall)
    (hc : c ∈ tocClusterCalls cf docs ids embs level maxd) :
    c.nClusters = max 2 (Nat.sqrt c.nItems) ∧ c.metric = "cosine" ∧
      c.linkage = "average" ∧ 2 < c.nItems ∧ c.level ≤ maxd := by
  have aux : ∀ (fuel : Nat), ∀ (docs2 ids2 : List String) (embs2 : List Emb) (level2 : Nat),
      maxd + 1 - level2 ≤ fuel →
      ∀ c2 ∈ tocClusterCalls cf docs2 ids2 embs2 level2 maxd,
        c2.nClusters = max 2 (Nat.sqrt c2.nItems) ∧ c2.metric = "cosine" ∧
          c2.linkage = "average" ∧ 2 < c2.nItems ∧ c2.level ≤ maxd := by
    intro fuel
    induction fuel with
    | zero =>
      intro docs2 ids2 embs2 level2 hf c2 hc2
      rw [tocClusterCalls, dif_pos (Or.inr (by omega))] at hc2
      cases hc2
    | succ n ih =>
      intro docs2 ids2 embs2 level2 hf c2 hc2
      rw [tocClusterCalls] at hc2
      by_cases h : embs2.length ≤ 2 ∨ maxd < level2
      · rw [dif_pos h] at hc2
        cases hc2
      · rw [dif_neg h] at hc2
        push_neg at h
        simp only [List.mem_cons, List.mem_flatMap] at hc2
        rcases hc2 with rfl | ⟨v, _, hmem⟩
        · exact ⟨rfl, rfl, rfl, by show 2 < embs2.length; omega, by show level2 ≤ maxd; omega⟩
        · exact ih _ _ _ _ (by omega) c2 hmem
  exact aux (maxd + 1 - level) docs ids embs level le_rfl c hc

/-- Witness for C2 (amended): a concrete 3-item run issues its clustering
request with `max 2 (floor (sqrt 3)) = 2` clusters, cosine metric and average
linkage at level 1. -/
theorem branching_factor_floor_sqrt_witness :
    (⟨3, 2, "cosine", "average", 1⟩ : ClusterCall) ∈
      tocClusterCalls cf0 ["d1", "d2", "d3"] ["i1", "i2", "i3"] [[0], [0], [0]] 1 3 ∧
    (2 : Nat) = max 2 (Nat.sqrt 3) ∧ (2 : Nat) < 3 ∧ (1 : Nat) ≤ 3 := by
  have hsq : Nat.sqrt 3 = 1 := sqrtEq 1 3 (by norm_num) (by norm_num)
  have hmem : (⟨3, 2, "cosine", "average", 1⟩ : ClusterCall) ∈
      tocClusterCalls cf0 ["d1", "d2", "d3"] ["i1", "i2", "i3"] [[0], [0], [0]] 1 3 := by
    rw [tocClusterCalls, dif_neg (by simp)]
    have hhd : (⟨3, max 2 (Nat.sqrt 3), "cosine", "average", 1⟩ : ClusterCall)
        = ⟨3, 2, "cosine", "average", 1⟩ := by rw [hsq]; norm_num
    simp only [List.length_cons, List.length_nil, hhd]  -- reduce lengths in the head
    exact List.mem_cons_self _ _
  have hprops := branching_factor_floor_sqrt cf0 ["d1", "d2", "d3"] ["i1", "i2", "i3"]
    [[0], [0], [0]] 1 3 ⟨3, 2, "cosine", "average", 1⟩ hmem
  exact ⟨hmem, hprops.1, hprops.2.2.2.1, hprops.2.2.2.2⟩

/-! ## Claim C3: stopping rule -/

theorem isLeafB_setScore (e : TocNode) (q : ℚ) : isLeafB (setScore e q) = isLeafB e := by
  cases e <;> rfl

theorem calc_orig_length (nrm : NormFn) (embs : List Emb) (entries : List TocNode) :
    (calculate_originality_scores nrm embs entries).length = entries.length := by
  unfold calculate_originality_scores
  split
  · rw [List.length_map]
  · rw [List.length_map, List.enum_length]

theorem mem_of_mem_enum {α : Type} {p : Nat × α} {l : List α} (hp : p ∈ l.enum) : p.2 ∈ l := by
  obtain ⟨i, e⟩ := p
  rw [List.enum_eq_zip_range] at hp
  exact (List.of_mem_zip hp).2

theorem calc_orig_all_leaf (nrm : NormFn) (embs : List Emb) (entries : List TocNode)
    (h : entries.all isLeafB = true) :
    (calculate_originality_scores nrm embs entries).all isLeafB = true := by
  rw [List.all_eq_true] at h ⊢
  unfold calculate_originality_scores
  split
  · intro x hx
    rw [List.mem_map] at hx
    obtain ⟨e, he, rfl⟩ := hx
    rw [isLeafB_setScore]
    exact h e he
  · intro x hx
    rw [List.mem_map] at hx
    obtain ⟨p, hp, rfl⟩ := hx
    rw [isLeafB_setScore]
    exact h p.2 (mem_of_mem_enum hp)

theorem leafEntries_all_leaf (docs ids : List String) :
    (leafEntries docs ids).all isLeafB = true := by
  rw [List.all_eq_true]
  intro x hx
  rw [leafEntries, List.mem_map] at hx
  obtain ⟨p, _, rfl⟩ := hx
  rfl

/-- C3: whenever a recursive call sees at most 2 items or level > max_depth,
it emits exactly one leaf per input item (no headings) and issues no
clustering request; in particular a size-0 corpus yields `[]`, and the leaf
branch at the top level (sizes 1 and 2 included) is a flat leaf list. -/
theorem stopping_rule_leaves (cf : ClusterFn) (ex : ExtractFn) (nrm : NormFn)
    (docs ids : List String) (embs : List Emb) (level maxd : Nat)
    (hd : docs.length = embs.length) (hi : ids.length = embs.length)
    (hstop : embs.length ≤ 2 ∨ maxd < level) :
    (genTocStructure cf ex nrm docs ids embs level maxd).length = embs.length ∧
    (genTocStructure cf ex nrm docs ids embs level maxd).all isLeafB = true ∧
    tocClusterCalls cf docs ids embs level maxd = [] ∧
    (embs = [] → genTocStructure cf ex nrm docs ids embs level maxd = []) := by
  have hunf : genTocStructure cf ex nrm docs ids embs level maxd =
      calculate_originality_scores nrm embs (leafEntries docs ids) := by
    rw [genTocStructure, dif_pos hstop]
  have hlen : (genTocStructure cf ex nrm docs ids embs level maxd).length = embs.length := by
    rw [hunf, calc_orig_length, leafEntries, List.length_map, List.length_zip, hd, hi]
    omega
  refine ⟨hlen, ?_, ?_, ?_⟩
  · rw [hunf]
    exact calc_orig_all_leaf _ _ _ (leafEntries_all_leaf docs ids)
  · rw [tocClusterCalls, dif_pos hstop]
  · intro he
    subst he
    exact List.length_eq_zero.mp (by simpa using hlen)

/-- Witness for C3: a one-item corpus at the top level produces exactly one
leaf and no clustering request. -/
theorem stopping_rule_leaves_witness :
    (genTocStructure cf0 extractErrW nrmZ ["d"] ["a"] [[1]] 1 3).length = 1 ∧
    (genTocStructure cf0 extractErrW nrmZ ["d"] ["a"] [[1]] 1 3).all isLeafB = true ∧
    tocClusterCalls cf0 ["d"] ["a"] [[1]] 1 3 = [] ∧
    (([[1]] : List Emb) = [] → genTocStructure cf0 extractErrW nrmZ ["d"] ["a"] [[1]] 1 3 = []) := by
  exact stopping_rule_leaves cf0 extractErrW nrmZ ["d"] ["a"] [[1]] 1 3
    rfl rfl (Or.inl (by simp))


/-! ## Claim C5: depth bound and level increments -/

theorem nodeLevelsOK_of_all_leaf (maxd : Nat) (F : List TocNode)
    (h : F.all isLeafB = true) : nodeLevelsOK maxd F = true := by
  induction F with
  | nil => simp [nodeLevelsOK]
  | cons nd rest ih =>
    rw [List.all_cons, Bool.and_eq_true] at h
    cases nd with
    | leaf t x i attrs => simpa [nodeLevelsOK] using ih h.2
    | heading t lv cs attrs => simp [isLeafB] at h

theorem all_topLevelIs_of_all_leaf (lv : Nat) (F : List TocNode)
    (h : F.all isLeafB = true) : F.all (topLevelIs lv) = true := by
  rw [List.all_eq_true] at h ⊢
  intro nd hnd
  cases nd with
  | leaf t x i attrs => rfl
  | heading t l cs attrs => exact absurd (h _ hnd) (by simp [isLeafB])

theorem forestHeight_all_leaf (F : List TocNode) (h : F.all isLeafB = true) :
    forestHeight F ≤ 1 := by
  induction F with
  | nil => simp [forestHeight]
  | cons nd rest ih =>
    rw [List.all_cons, Bool.and_eq_true] at h
    cases nd with
    | leaf t x i attrs =>
      have hstep : forestHeight (TocNode.leaf t x i attrs :: rest)
          = max 1 (forestHeight rest) := by simp [forestHeight]
      rw [hstep]
      exact max_le le_rfl (ih h.2)
    | heading t lv cs attrs => simp [isLeafB] at h

theorem nodeLevelsOK_map_heading (maxd lv : Nat) (l : List Nat) (g : Nat → TocNode)
    (hg : ∀ v ∈ l, ∃ t cs attrs, g v = .heading t lv cs attrs ∧
      lv ≤ maxd ∧ cs.all (topLevelIs (lv + 1)) = true ∧ nodeLevelsOK maxd cs = true) :
    nodeLevelsOK maxd (l.map g) = true ∧ (l.map g).all (topLevelIs lv) = true := by
  induction l with
  | nil => exact ⟨by simp [nodeLevelsOK], by simp⟩
  | cons v vs ih =>
    obtain ⟨t, cs, attrs, hgv, hle, hall, hok⟩ := hg v (List.mem_cons_self _ _)
    obtain ⟨ih1, ih2⟩ := ih (fun w hw => hg w (List.mem_cons_of_mem _ hw))
    rw [List.map_cons, hgv]
    constructor
    · simp [nodeLevelsOK, hle, hall, hok, ih1]
    · rw [List.all_cons, ih2]
      simp [topLevelIs]

theorem forestHeight_map_heading (l : List Nat) (g : Nat → TocNode) (B : Nat)
    (hg : ∀ v ∈ l, ∃ t lv cs attrs, g v = .heading t lv cs attrs ∧ forestHeight cs ≤ B) :
    forestHeight (l.map g) ≤ B + 1 := by
  induction l with
  | nil => simp [forestHeight]
  | cons v vs ih =>
    obtain ⟨t, lv, cs, attrs, hgv, hcs⟩ := hg v (List.mem_cons_self _ _)
    have ihr := ih (fun w hw => hg w (List.mem_cons_of_mem _ hw))
    rw [List.map_cons, hgv]
    have hstep : forestHeight (TocNode.heading t lv cs attrs :: vs.map g)
        = max (forestHeight cs + 1) (forestHeight (vs.map g)) := by simp [forestHeight]
    rw [hstep]
    exact max_le (by omega) ihr

theorem genToc_levels_aux (cf : ClusterFn) (ex : ExtractFn) (nrm : NormFn) (maxd : Nat) :
    ∀ (fuel : Nat) (docs ids : List String) (embs : List Emb) (level : Nat),
      maxd + 1 - level ≤ fuel →
      nodeLevelsOK maxd (genTocStructure cf ex nrm docs ids embs level maxd) = true ∧
      (genTocStructure cf ex nrm docs ids embs level maxd).all (topLevelIs level) = true := by
  intro fuel
  induction fuel with
  | zero =>
    intro docs ids embs level hf
    rw [genTocStructure, dif_pos (Or.inr (by omega))]
    have hleaf := calc_orig_all_leaf nrm embs (leafEntries docs ids) (leafEntries_all_leaf docs ids)
    exact ⟨nodeLevelsOK_of_all_leaf maxd _ hleaf, all_topLevelIs_of_all_leaf level _ hleaf⟩
  | succ n ih =>
    intro docs ids embs level hf
    by_cases h : embs.length ≤ 2 ∨ maxd < level
    · rw [genTocStructure, dif_pos h]
      have hleaf := calc_orig_all_leaf nrm embs (leafEntries docs ids) (leafEntries_all_leaf docs ids)
      exact ⟨nodeLevelsOK_of_all_leaf maxd _ hleaf, all_topLevelIs_of_all_leaf level _ hleaf⟩
    · rw [genTocStructure, dif_neg h]
      push_neg at h
      apply nodeLevelsOK_map_heading
      intro v hv
      refine ⟨_, _, _, rfl, by omega, ?_, ?_⟩
      · exact (ih _ _ _ (level + 1) (by omega)).2
      · exact (ih _ _ _ (level + 1) (by omega)).1

theorem genToc_height_aux (cf : ClusterFn) (ex : ExtractFn) (nrm : NormFn) (maxd : Nat) :
    ∀ (fuel : Nat) (docs ids : List String) (embs : List Emb) (level : Nat),
      maxd + 1 - level ≤ fuel → level ≤ maxd + 1 →
      forestHeight (genTocStructure cf ex nrm docs ids embs level maxd) ≤ maxd + 2 - level := by
  intro fuel
  induction fuel with
  | zero =>
    intro docs ids embs level hf hl
    rw [genTocStructure, dif_pos (Or.inr (by omega))]
    have hleaf := calc_orig_all_leaf nrm embs (leafEntries docs ids) (leafEntries_all_leaf docs ids)
    have := forestHeight_all_leaf _ hleaf
    omega
  | succ n ih =>
    intro docs ids embs level hf hl
    by_cases h : embs.length ≤ 2 ∨ maxd < level
    · rw [genTocStructure, dif_pos h]
      have hleaf := calc_orig_all_leaf nrm embs (leafEntries docs ids) (leafEntries_all_leaf docs ids)
      have := forestHeight_all_leaf _ hleaf
      omega
    · rw [genTocStructure, dif_neg h]
      push_neg at h
      refine le_trans (forestHeight_map_heading _ _ (maxd + 1 - level) ?_) (by omega)
      intro v hv
      refine ⟨_, _, _, _, rfl, ?_⟩
      exact le_trans (ih _ _ _ (level + 1) (by omega) (by omega)) (by omega)

/-- C5: for a tree built at the top level (`level = 1`) with `max_depth = d`,
no heading carries `level > d`, every heading child of a heading carries a
level exactly one greater than its parent's, and leaves sit only at recursion
level ≤ d + 1 (the forest's height is at most d + 1). -/
theorem toc_depth_bound (cf : ClusterFn) (ex : ExtractFn) (nrm : NormFn)
    (docs ids : List String) (embs : List Emb) (maxd : Nat) :
    nodeLevelsOK maxd (genTocStructure cf ex nrm docs ids embs 1 maxd) = true ∧
    forestHeight (genTocStructure cf ex nrm docs ids embs 1 maxd) ≤ maxd + 1 := by
  refine ⟨(genToc_levels_aux cf ex nrm maxd (maxd + 1 - 1) docs ids embs 1 le_rfl).1, ?_⟩
  have := genToc_height_aux cf ex nrm maxd (maxd + 1 - 1) docs ids embs 1 le_rfl (by omega)
  omega

/-! ## Claim C10: originality key naming -/

theorem attrsCheckB_singleton (v : ℚ) : attrsCheckB [("originality_score", v)] = true := by
  rfl

theorem nodeAttrsOK_of_leaves (F : List TocNode)
    (h : ∀ nd ∈ F, ∃ t x i v, nd = TocNode.leaf t x i [("originality_score", v)]) :
    nodeAttrsOK F = true := by
  induction F with
  | nil => simp [nodeAttrsOK]
  | cons nd rest ih =>
    obtain ⟨t, x, i, v, rfl⟩ := h _ (List.mem_cons_self _ _)
    have hr := ih (fun m hm => h m (List.mem_cons_of_mem _ hm))
    simp [nodeAttrsOK, attrsCheckB_singleton, hr]

theorem calc_orig_leafEntries_attrs (nrm : NormFn) (embs : List Emb) (docs ids : List String) :
    ∀ nd ∈ calculate_originality_scores nrm embs (leafEntries docs ids),
      ∃ t x i v, nd = TocNode.leaf t x i [("originality_score", v)] := by
  intro nd hnd
  unfold calculate_originality_scores at hnd
  split at hnd
  · rw [List.mem_map] at hnd
    obtain ⟨e, he, rfl⟩ := hnd
    rw [leafEntries, List.mem_map] at he
    obtain ⟨p, _, rfl⟩ := he
    exact ⟨p.2, p.1, p.2, 1, rfl⟩
  · rw [List.mem_map] at hnd
    obtain ⟨q, hq, rfl⟩ := hnd
    have hm := mem_of_mem_enum hq
    rw [leafEntries, List.mem_map] at hm
    obtain ⟨p, _, het⟩ := hm
    refine ⟨p.2, p.1, p.2, (calcScores nrm embs).getD q.1 1, ?_⟩
    rw [← het]
    rfl

theorem nodeAttrsOK_map_heading (l : List Nat) (g : Nat → TocNode)
    (hg : ∀ v ∈ l, ∃ t lv cs sc, g v = TocNode.heading t lv cs [("originality_score", sc)] ∧
      nodeAttrsOK cs = true) :
    nodeAttrsOK (l.map g) = true := by
  induction l with
  | nil => simp [nodeAttrsOK]
  | cons v vs ih =>
    obtain ⟨t, lv, cs, sc, hgv, hok⟩ := hg v (List.mem_cons_self _ _)
    have hr := ih (fun w hw => hg w (List.mem_cons_of_mem _ hw))
    rw [List.map_cons, hgv]
    simp [nodeAttrsOK, attrsCheckB_singleton, hok, hr]

theorem genToc_attrs_aux (cf : ClusterFn) (ex : ExtractFn) (nrm : NormFn) (maxd : Nat) :
    ∀ (fuel : Nat) (docs ids : List String) (embs : List Emb) (level : Nat),
      maxd + 1 - level ≤ fuel →
      nodeAttrsOK (genTocStructure cf ex nrm docs ids embs level maxd) = true := by
  intro fuel
  induction fuel with
  | zero =>
    intro docs ids embs level hf
    rw [genTocStructure, dif_pos (Or.inr (by omega))]
    exact nodeAttrsOK_of_leaves _ (calc_orig_leafEntries_attrs nrm embs docs ids)
  | succ n ih =>
    intro docs ids embs level hf
    by_cases h : embs.length ≤ 2 ∨ maxd < level
    · rw [genTocStructure, dif_pos h]
      exact nodeAttrsOK_of_leaves _ (calc_orig_leafEntries_attrs nrm embs docs ids)
    · rw [genTocStructure, dif_neg h]
      push_neg at h
      apply nodeAttrsOK_map_heading
      intro v hv
      exact ⟨_, _, _, _, rfl, ih _ _ _ (level + 1) (by omega)⟩

/-- C10: every node (leaf or heading) of a freshly built tree stores its
novelty value under the key `"originality_score"`, no node carries a key
named `"originality"`, and consequently the renderer's
`node.get('originality', 'N/A')` evaluates to `'N/A'` on every node. -/
theorem originality_key_mismatch (cf : ClusterFn) (ex : ExtractFn) (nrm : NormFn)
    (collection : List CollectionRow) :
    nodeAttrsOK (generate_toc_structure cf ex nrm collection) = true := by
  unfold generate_toc_structure tocBuildCorpus
  exact genToc_attrs_aux cf ex nrm 3 (3 + 1 - 1) _ _ _ 1 le_rfl

/-! ## Claim C4: leaf-id coverage -/

theorem count_flatMap_nat (l : List Nat) (f : Nat → List Nat) (a : Nat) :
    (l.flatMap f).count a = (l.map (fun v => (f v).count a)).sum := by
  induction l with
  | nil => rfl
  | cons v vs ih => simp [List.flatMap_cons, List.count_append, ih]

theorem sum_ite_nodup (x c : Nat) : ∀ (l : List Nat), l.Nodup →
    (l.map (fun v => if x = v then c else 0)).sum = if x ∈ l then c else 0 := by
  intro l
  induction l with
  | nil => simp
  | cons v vs ih =>
    intro h
    rcases List.nodup_cons.mp h with ⟨hv, hvs⟩
    by_cases hx : x = v
    · subst hx
      have hrest := ih hvs
      rw [if_neg hv] at hrest
      simp [hrest]
    · simp only [List.map_cons, List.sum_cons, if_neg hx, ih hvs, List.mem_cons]
      simp [hx]

theorem count_idxsOf (labels : List Nat) (v a : Nat) :
    (idxsOf labels v).count a
      = if labels.getD a 0 = v then (List.range labels.length).count a else 0 := by
  unfold idxsOf
  by_cases h : labels.getD a 0 = v
  · rw [if_pos h]
    exact List.count_filter (by simpa using h)
  · rw [if_neg h]
    rw [List.count_eq_zero]
    intro hmem
    have := List.of_mem_filter hmem
    rw [beq_iff_eq] at this
    exact h this

theorem count_range_ite (m a : Nat) :
    (List.range m).count a = if a < m then 1 else 0 := by
  by_cases h : a < m
  · rw [if_pos h]
    exact List.count_eq_one_of_mem (List.nodup_range m) (List.mem_range.mpr h)
  · rw [if_neg h]
    rw [List.count_eq_zero]
    intro hmem
    exact h (List.mem_range.mp hmem)

/-- Iterating `np.where(labels == v)` over the distinct labels enumerates every
sample index exactly once. -/
theorem partition_perm (labels : List Nat) :
    ((uniqueSorted labels).flatMap (fun v => idxsOf labels v)).Perm
      (List.range labels.length) := by
  rw [List.perm_iff_count]
  intro a
  rw [count_flatMap_nat]
  have hcongr : (uniqueSorted labels).map (fun v => (idxsOf labels v).count a)
      = (uniqueSorted labels).map (fun v =>
          if labels.getD a 0 = v then (List.range labels.length).count a else 0) := by
    apply List.map_congr_left
    intro v _
    exact count_idxsOf labels v a
  rw [hcongr, sum_ite_nodup _ _ _ (nodup_uniqueSorted labels)]
  by_cases ha : a < labels.length
  · have hmem : labels.getD a 0 ∈ uniqueSorted labels := by
      rw [mem_uniqueSorted]
      rw [List.getD_eq_getElem _ _ ha]
      exact List.getElem_mem _
    rw [if_pos hmem]
  · rw [count_range_ite, if_neg ha]
    split <;> rfl

theorem map_getD_range_self {α : Type} (d : α) :
    ∀ (l : List α), (List.range l.length).map (fun i => l.getD i d) = l := by
  intro l
  induction l with
  | nil => rfl
  | cons x xs ih =>
    rw [List.length_cons, List.range_succ_eq_map, List.map_cons, List.map_map]
    have hfun : ((fun i => (x :: xs).getD i d) ∘ Nat.succ) = (fun i => xs.getD i d) := by
      funext i
      simp [List.getD_cons_succ]
    rw [hfun, ih]
    rfl

theorem leafIdsF_cons (nd : TocNode) (rest : List TocNode) :
    leafIdsF (nd :: rest) = leafIdsN nd ++ leafIdsF rest := by
  simp [leafIdsF]

theorem leafIdsN_setScore (e : TocNode) (q : ℚ) : leafIdsN (setScore e q) = leafIdsN e := by
  cases e <;> simp [setScore, leafIdsN]

theorem leafIdsF_map_congr (l : List TocNode) (f : TocNode → TocNode)
    (hf : ∀ e, leafIdsN (f e) = leafIdsN e) : leafIdsF (l.map f) = leafIdsF l := by
  induction l with
  | nil => rfl
  | cons e rest ih => rw [List.map_cons, leafIdsF_cons, leafIdsF_cons, hf, ih]

theorem leafIdsF_enumFrom_map (s : Nat → ℚ) :
    ∀ (l : List TocNode) (k : Nat),
      leafIdsF ((List.enumFrom k l).map (fun p => setScore p.2 (s p.1))) = leafIdsF l := by
  intro l
  induction l with
  | nil => intro k; rfl
  | cons e rest ih =>
    intro k
    rw [List.enumFrom_cons, List.map_cons, leafIdsF_cons, leafIdsF_cons, leafIdsN_setScore,
      ih (k + 1)]

theorem leafIdsF_calc_orig (nrm : NormFn) (embs : List Emb) (entries : List TocNode) :
    leafIdsF (calculate_originality_scores nrm embs entries) = leafIdsF entries := by
  unfold calculate_originality_scores
  split
  · exact leafIdsF_map_congr _ _ (fun e => leafIdsN_setScore e 1)
  · exact leafIdsF_enumFrom_map (fun i => (calcScores nrm embs).getD i 1) entries 0

theorem leafIdsF_leafEntries (docs ids : List String) (h : docs.length = ids.length) :
    leafIdsF (leafEntries docs ids) = ids := by
  unfold leafEntries
  have hgen : ∀ (l : List (String × String)),
      leafIdsF (l.map (fun p => TocNode.leaf p.2 p.1 p.2 [])) = l.map Prod.snd := by
    intro l
    induction l with
    | nil => rfl
    | cons p rest ih =>
      rw [List.map_cons, leafIdsF_cons, List.map_cons, ih]
      simp [leafIdsN]
  rw [hgen]
  exact List.map_snd_zip docs ids (le_of_eq h.symm)

theorem leafIdsF_map_flat (l : List Nat) (g : Nat → TocNode) :
    leafIdsF (l.map g) = l.flatMap (fun v => leafIdsN (g v)) := by
  induction l with
  | nil => rfl
  | cons v vs ih => rw [List.map_cons, leafIdsF_cons, List.flatMap_cons, ih]

theorem perm_flatMap_congr {α β : Type} (l : List α) (f g2 : α → List β)
    (h : ∀ v ∈ l, (f v).Perm (g2 v)) : (l.flatMap f).Perm (l.flatMap g2) := by
  induction l with
  | nil => exact List.Perm.refl _
  | cons v vs ih =>
    rw [List.flatMap_cons, List.flatMap_cons]
    exact (h v (List.mem_cons_self _ _)).append
      (ih fun w hw => h w (List.mem_cons_of_mem _ hw))

/-- C4: the leaf ids of the tree built by `_generate_toc_structure` are a
permutation of the input ids: no id is duplicated, none is omitted (clustering
partitions the index range, every index lands in exactly one label class).
The only library contract needed is scikit-learn's: `fit_predict` returns one
label per sample. -/
theorem toc_leaf_id_coverage (cf : ClusterFn) (ex : ExtractFn) (nrm : NormFn)
    (docs ids : List String) (embs : List Emb) (level maxd : Nat)
    (hcf : ∀ (k : Nat) (m lk : String) (X : List Emb), (cf k m lk X).length = X.length)
    (hd : docs.length = embs.length) (hi : ids.length = embs.length) :
    (leafIdsF (genTocStructure cf ex nrm docs ids embs level maxd)).Perm ids := by
  have aux : ∀ (fuel : Nat) (docs2 ids2 : List String) (embs2 : List Emb) (level2 : Nat),
      maxd + 1 - level2 ≤ fuel →
      docs2.length = embs2.length → ids2.length = embs2.length →
      (leafIdsF (genTocStructure cf ex nrm docs2 ids2 embs2 level2 maxd)).Perm ids2 := by
    intro fuel
    induction fuel with
    | zero =>
      intro docs2 ids2 embs2 level2 hf hd2 hi2
      rw [genTocStructure, dif_pos (Or.inr (by omega)), leafIdsF_calc_orig,
        leafIdsF_leafEntries docs2 ids2 (by omega)]
    | succ n ih =>
      intro docs2 ids2 embs2 level2 hf hd2 hi2
      by_cases h : embs2.length ≤ 2 ∨ maxd < level2
      · rw [genTocStructure, dif_pos h, leafIdsF_calc_orig,
          leafIdsF_leafEntries docs2 ids2 (by omega)]
      · rw [genTocStructure, dif_neg h]
        push_neg at h
        rw [leafIdsF_map_flat]
        refine (perm_flatMap_congr _ _
          (fun v => clusterOf "" ids2
            (idxsOf (cf (max 2 (Nat.sqrt embs2.length)) "cosine" "average" embs2) v)) ?_).trans ?_
        · intro v hv
          have hstep : leafIdsN
              (let idxs := idxsOf (cf (max 2 (Nat.sqrt embs2.length)) "cosine" "average" embs2) v
               let cDocs := clusterOf "" docs2 idxs
               let cIds := clusterOf "" ids2 idxs
               let cEmbs := clusterOf [] embs2 idxs
               let children := genTocStructure cf ex nrm cDocs cIds cEmbs (level2 + 1) maxd
               TocNode.heading (generate_synthetic_title ex cDocs) level2 children
                 (dictSet [] "originality_score" (headingScore nrm children embs2 docs2 ids2)))
              = leafIdsF (genTocStructure cf ex nrm
                  (clusterOf "" docs2
                    (idxsOf (cf (max 2 (Nat.sqrt embs2.length)) "cosine" "average" embs2) v))
                  (clusterOf "" ids2
                    (idxsOf (cf (max 2 (Nat.sqrt embs2.length)) "cosine" "average" embs2) v))
                  (clusterOf [] embs2
                    (idxsOf (cf (max 2 (Nat.sqrt embs2.length)) "cosine" "average" embs2) v))
                  (level2 + 1) maxd) := by
            simp [leafIdsN]
          rw [hstep]
          exact ih _ _ _ (level2 + 1) (by omega) (by simp [clusterOf]) (by simp [clusterOf])
        · have hclu : (fun v => clusterOf "" ids2
              (idxsOf (cf (max 2 (Nat.sqrt embs2.length)) "cosine" "average" embs2) v))
              = (fun v => (idxsOf (cf (max 2 (Nat.sqrt embs2.length)) "cosine" "average" embs2) v).map
                  (fun i => ids2.getD i "")) := rfl
          rw [hclu, ← List.map_flatMap]
          have hperm := (partition_perm
            (cf (max 2 (Nat.sqrt embs2.length)) "cosine" "average" embs2)).map
            (fun i => ids2.getD i "")
          refine hperm.trans ?_
          rw [hcf, ← hi2]
          exact (map_getD_range_self "" ids2).symm ▸ List.Perm.refl ids2
  exact aux (maxd + 1 - level) docs ids embs level le_rfl hd hi

/-- Witness for C4: a concrete one-document corpus; the built tree's leaf ids
are exactly the input ids. -/
theorem toc_leaf_id_coverage_witness :
    (leafIdsF (genTocStructure cf0 extractErrW nrmZ ["d"] ["a"] [[1]] 1 3)).Perm ["a"] :=
  toc_leaf_id_coverage cf0 extractErrW nrmZ ["d"] ["a"] [[1]] 1 3
    (fun _ _ _ X => by simp [cf0]) rfl rfl
